import Mathlib

/-!
# Verification of the ScaleMap map-reduce pipeline (`scale_map.py`)

Shallow embedding of the pipeline in `src/scale_map.py`:

* `mapperRun`    models `mapper` (the Counter): reads a file line by line,
  parses each stripped line with Python's `int`, counts frequencies,
  catches only `FileNotFoundError`.
* `poolCollect` / `saveResults` model `run_mappers`: the
  `ProcessPoolExecutor.map` call that collects results in input order,
  and the loop writing `mapper_output_{i}.json` files.
* `reducerRun`   models `reducer`: glob `*.json`, decode each record with
  `json.load` and `int(key)`, merge into a `defaultdict(int)`, sort by
  count descending with Python's stable sort, write the top 6 to
  `final_output.txt`.
* `mainRun`      models `main`: `run_mappers()` followed unconditionally by
  `reducer()`.

Python `dict`s preserve insertion order; they are embedded as association
lists (`List (Int × Int)`) whose key order is insertion order.  Python
integers are unbounded, hence `Int`.  A raised-and-uncaught exception is
modelled as `Option.none` at the pipeline boundary.
-/

namespace ScaleMap

/-! ## Decimal digits: Python's `str` on integers and `int` on strings -/

/-- The decimal digit character table used when rendering an integer
(the behaviour of Python's `str` digit by digit). -/
def digitChar (d : Nat) : Char :=
  match d with
  | 0 => '0' | 1 => '1' | 2 => '2' | 3 => '3' | 4 => '4'
  | 5 => '5' | 6 => '6' | 7 => '7' | 8 => '8' | 9 => '9'
  | _ => '*'

/-- Numeric value of a decimal digit character. -/
def charDigitVal (c : Char) : Nat := c.toNat - 48

/-- Decimal digits, most significant first, by structural recursion on a
fuel bound (any fuel above the value itself is enough). -/
def natToCharsAux (fuel n : Nat) : List Char :=
  match fuel with
  | 0 => []
  | fuel' + 1 =>
    if n < 10 then [digitChar n]
    else natToCharsAux fuel' (n / 10) ++ [digitChar (n % 10)]

/-- Decimal digits of `n`, most significant first (Python `str(n)` for
`n : Nat`). -/
def natToChars (n : Nat) : List Char := natToCharsAux (n + 1) n

/-- Value of a big-endian decimal digit list. -/
def digitsToNat (cs : List Char) : Nat :=
  cs.foldl (fun a c => 10 * a + charDigitVal c) 0

/-- Characters stripped by Python's `str.strip()` (ASCII whitespace). -/
def isSpaceChar (c : Char) : Bool :=
  c == ' ' || c == '\t' || c == '\n' || c == '\x0d' || c == '\x0b' || c == '\x0c'

/-- Python `str.strip()`: drop whitespace from both ends. -/
def stripChars (cs : List Char) : List Char :=
  ((cs.dropWhile isSpaceChar).reverse.dropWhile isSpaceChar).reverse

/-- Python `int(s)` on a stripped character list: an optional sign followed
by a nonempty run of decimal digits; anything else raises `ValueError`
(`none`).  (Python's underscore digit grouping and non-ASCII digits are not
exercised by this pipeline and are not modelled.) -/
def pyIntCore (cs : List Char) : Option Int :=
  match cs with
  | [] => none
  | c :: rest =>
    if c = '-' then
      if rest.isEmpty then none
      else if rest.all Char.isDigit then some (-(digitsToNat rest : Int)) else none
    else if c = '+' then
      if rest.isEmpty then none
      else if rest.all Char.isDigit then some ((digitsToNat rest : Int)) else none
    else if (c :: rest).all Char.isDigit then some ((digitsToNat (c :: rest) : Int)) else none

/-- Python `int(s)` for a string argument: strip, then parse. -/
def pyInt (s : String) : Option Int := pyIntCore (stripChars s.data)

/-- Python `str(n)` for an integer `n` (used by `json.dump` to render the
keys of an integer-keyed dict). -/
def intToString (n : Int) : String :=
  if n < 0 then String.mk ('-' :: natToChars n.natAbs)
  else String.mk (natToChars n.toNat)

/-- Python `str(n)` for a natural number (used for the
`mapper_output_{i}.json` file names). -/
def natToString (n : Nat) : String := String.mk (natToChars n)

theorem charDigitVal_digitChar : ∀ d, d < 10 → charDigitVal (digitChar d) = d := by
  decide

theorem digitChar_spec : ∀ d, d < 10 →
    Char.isDigit (digitChar d) = true ∧ isSpaceChar (digitChar d) = false ∧
    digitChar d ≠ '-' ∧ digitChar d ≠ '+' := by
  decide

theorem natToCharsAux_spec : ∀ fuel n, n < fuel →
    natToCharsAux fuel n ≠ [] ∧
      ∀ c ∈ natToCharsAux fuel n, ∃ d, d < 10 ∧ c = digitChar d := by
  intro fuel
  induction fuel with
  | zero => intro n h; omega
  | succ fuel ih =>
    intro n h
    rw [natToCharsAux]
    split
    · rename_i h10
      refine ⟨by simp, fun c hc => ?_⟩
      simp only [List.mem_singleton] at hc
      exact ⟨n, h10, hc⟩
    · rename_i h10
      have hlt : n / 10 < fuel := by
        have hdiv : n / 10 < n := Nat.div_lt_self (by omega) (by omega)
        omega
      obtain ⟨-, hmem⟩ := ih (n / 10) hlt
      refine ⟨by simp, fun c hc => ?_⟩
      rcases List.mem_append.mp hc with h1 | h1
      · exact hmem c h1
      · simp only [List.mem_singleton] at h1
        exact ⟨n % 10, Nat.mod_lt _ (by omega), h1⟩

theorem natToChars_spec (n : Nat) :
    natToChars n ≠ [] ∧ ∀ c ∈ natToChars n, ∃ d, d < 10 ∧ c = digitChar d :=
  natToCharsAux_spec (n + 1) n (Nat.lt_succ_self n)

theorem digitsToNat_append_single (cs : List Char) (c : Char) :
    digitsToNat (cs ++ [c]) = 10 * digitsToNat cs + charDigitVal c := by
  simp [digitsToNat, List.foldl_append]

theorem digitsToNat_natToCharsAux : ∀ fuel n, n < fuel →
    digitsToNat (natToCharsAux fuel n) = n := by
  intro fuel
  induction fuel with
  | zero => intro n h; omega
  | succ fuel ih =>
    intro n h
    rw [natToCharsAux]
    split
    · rename_i h10
      simp [digitsToNat, charDigitVal_digitChar n h10]
    · rename_i h10
      have hlt : n / 10 < fuel := by
        have hdiv : n / 10 < n := Nat.div_lt_self (by omega) (by omega)
        omega
      rw [digitsToNat_append_single, ih (n / 10) hlt,
        charDigitVal_digitChar (n % 10) (Nat.mod_lt _ (by omega))]
      omega

theorem digitsToNat_natToChars (n : Nat) : digitsToNat (natToChars n) = n :=
  digitsToNat_natToCharsAux (n + 1) n (Nat.lt_succ_self n)

theorem dropWhile_of_forall_neg {p : Char → Bool} {cs : List Char}
    (h : ∀ c ∈ cs, p c = false) : cs.dropWhile p = cs := by
  cases cs with
  | nil => rfl
  | cons c rest => simp [List.dropWhile, h c (List.mem_cons_self _ _)]

theorem stripChars_eq_self {cs : List Char}
    (h : ∀ c ∈ cs, isSpaceChar c = false) : stripChars cs = cs := by
  unfold stripChars
  rw [dropWhile_of_forall_neg h,
    dropWhile_of_forall_neg (fun c hc => h c (List.mem_reverse.mp hc)),
    List.reverse_reverse]

theorem natToChars_not_space (n : Nat) :
    ∀ c ∈ natToChars n, isSpaceChar c = false := by
  intro c hc
  obtain ⟨d, hd, rfl⟩ := (natToChars_spec n).2 c hc
  exact (digitChar_spec d hd).2.1

theorem natToChars_all_digits (n : Nat) :
    (natToChars n).all Char.isDigit = true := by
  rw [List.all_eq_true]
  intro c hc
  obtain ⟨d, hd, rfl⟩ := (natToChars_spec n).2 c hc
  exact (digitChar_spec d hd).1

/-- Round trip at the heart of the Intermediate Store boundary:
Python's `int` applied to Python's `str` of an integer gives it back. -/
theorem pyInt_intToString (n : Int) : pyInt (intToString n) = some n := by
  unfold pyInt intToString
  split
  · rename_i hneg
    show pyIntCore (stripChars ('-' :: natToChars n.natAbs)) = some n
    rw [stripChars_eq_self]
    · obtain ⟨hne, -⟩ := natToChars_spec n.natAbs
      have hfalse : (natToChars n.natAbs).isEmpty = false := by
        cases hx : natToChars n.natAbs with
        | nil => exact absurd hx hne
        | cons a l => rfl
      rw [pyIntCore, if_pos rfl, if_neg (by simp [hfalse]),
        if_pos (natToChars_all_digits n.natAbs), digitsToNat_natToChars,
        Int.natCast_natAbs, abs_of_neg hneg, neg_neg]
    · intro c hc
      rcases List.mem_cons.mp hc with rfl | hc2
      · decide
      · exact natToChars_not_space _ c hc2
  · rename_i hpos
    show pyIntCore (stripChars (natToChars n.toNat)) = some n
    rw [stripChars_eq_self (natToChars_not_space n.toNat)]
    obtain ⟨hne, hall⟩ := natToChars_spec n.toNat
    obtain ⟨c, rest, hcr⟩ := List.exists_cons_of_ne_nil hne
    obtain ⟨d, hd, hcd⟩ := hall c (by rw [hcr]; exact List.mem_cons_self _ _)
    rw [hcr, pyIntCore]
    rw [if_neg (by rw [hcd]; exact (digitChar_spec d hd).2.2.1),
      if_neg (by rw [hcd]; exact (digitChar_spec d hd).2.2.2),
      if_pos (by rw [← hcr]; exact natToChars_all_digits n.toNat)]
    rw [← hcr, digitsToNat_natToChars, Int.toNat_of_nonneg (not_lt.mp hpos)]

/-! ## Insertion-ordered dictionaries (Python `dict` / `defaultdict(int)`)

`counts[num] += count` on a `defaultdict(int)`: if the key is present its
value is updated in place, otherwise a new entry is appended at the end
(Python dicts preserve insertion order). -/

/-- `m[k] += v` on an insertion-ordered dict defaulting to `0`. -/
def addCount (m : List (Int × Int)) (k v : Int) : List (Int × Int) :=
  match m with
  | [] => [(k, v)]
  | (k', v') :: rest =>
    if k' = k then (k', v' + v) :: rest else (k', v') :: addCount rest k v

/-- `m[k]` with default `0` (`defaultdict(int)` lookup). -/
def getCount (m : List (Int × Int)) (k : Int) : Int :=
  match m with
  | [] => 0
  | (k', v) :: rest => if k' = k then v else getCount rest k

/-- The keys of a dict, in insertion order. -/
def keysOf (m : List (Int × Int)) : List Int := m.map Prod.fst

/-- A dict is well formed when its keys are pairwise distinct. -/
def keysNodup (m : List (Int × Int)) : Prop := (keysOf m).Nodup

instance (m : List (Int × Int)) : Decidable (keysNodup m) := by
  unfold keysNodup; infer_instance

/-- The inner loop of `reducer`:
`for num, count in data.items(): final_counts[int(num)] += count`
(after the keys have been decoded to integers). -/
def mergePairs (m : List (Int × Int)) (r : List (Int × Int)) : List (Int × Int) :=
  r.foldl (fun acc p => addCount acc p.1 p.2) m

/-- All decoded Partial Records merged into one dict, in discovery order,
starting from the empty `defaultdict(int)`. -/
def mergeRecordsList (rs : List (List (Int × Int))) : List (Int × Int) :=
  rs.foldl mergePairs []

/-- Total count contributed by a record's pairs for key `k`
(for a well-formed record this is its single value at `k`, or `0`). -/
def pairSum (r : List (Int × Int)) (k : Int) : Int :=
  ((r.filter fun p => p.1 = k).map Prod.snd).sum

/-! ## The sort in `reducer`

`sorted(final_counts.items(), key=lambda item: item[1], reverse=True)`:
Python's sort is stable, so the output is the unique reordering that is
sorted by count descending and keeps equal-count entries in the input
(insertion) order.  `List.insertionSort` with the relation
"may come no later than" (count at least as large) produces exactly that
reordering. -/

/-- `a` may be placed no later than `b`: `a`'s count is at least `b`'s. -/
def countGE (a b : Int × Int) : Prop := b.2 ≤ a.2

instance : DecidableRel countGE := fun a b => inferInstanceAs (Decidable (b.2 ≤ a.2))

instance : IsTotal (Int × Int) countGE := ⟨fun a b => le_total b.2 a.2⟩

instance : IsTrans (Int × Int) countGE := ⟨fun _ _ _ hab hbc => le_trans hbc hab⟩

/-- Python's stable sort by count descending. -/
def sortDesc (l : List (Int × Int)) : List (Int × Int) := l.insertionSort countGE

/-! ## The Counter (`mapper`) -/

/-- What `open(file_path)` finds at a path: the target is missing
(`FileNotFoundError`), it exists but cannot be opened (e.g.
`PermissionError`), or it is readable with the given lines. -/
inductive FileData where
  | missing
  | unreadable
  | lines (ls : List String)
deriving DecidableEq

/-- Outcome of one `mapper` call: `result = none` models an uncaught
exception propagating out of the call; `warned` records whether the
`"Error: File not found"` warning was printed. -/
structure MapOut where
  result : Option (List (Int × Int))
  warned : Bool
deriving DecidableEq

/-- The counting loop of `mapper`: `int(line.strip())` on each line,
`ValueError` lines are skipped. -/
def countLines (ls : List String) : List (Int × Int) :=
  ls.foldl
    (fun acc l =>
      match pyInt l with
      | some n => addCount acc n 1
      | none => acc)
    []

/-- `mapper(file_path)`: the body catches `ValueError` per line and
`FileNotFoundError` for the whole `open` (returning `{}` after printing a
warning); any other exception from `open` is not caught. -/
def mapperRun (fd : FileData) : MapOut :=
  match fd with
  | .missing => ⟨some [], true⟩
  | .unreadable => ⟨none, false⟩
  | .lines ls => ⟨some (countLines ls), false⟩

/-- The mapping `mapper` returns, or `none` when the call raises. -/
def mapperResult (fd : FileData) : Option (List (Int × Int)) := (mapperRun fd).result

/-! ## The Worker Pool (`ProcessPoolExecutor.map` in `run_mappers`)

Workers finish in an arbitrary completion order; the executor hands back
results indexed by their submission position.  The completion order is an
explicit schedule (a permutation of the task indices); `poolCollect`
rebuilds the result sequence by index, as `list(executor.map(...))` does. -/

/-- Completion events of the pool: the tasks finish in schedule order,
each producing `(index, mapper result)`. -/
def poolEvents (fs : List FileData) (sched : List Nat) :
    List (Nat × Option (List (Int × Int))) :=
  sched.map fun i => (i, mapperResult (fs.getD i FileData.missing))

/-- Results re-assembled in submission order, whatever the completion
order was. -/
def poolCollect (fs : List FileData) (sched : List Nat) :
    List (Option (List (Int × Int))) :=
  (List.range fs.length).map fun i =>
    (((poolEvents fs sched).find? fun e => e.1 == i).map Prod.snd).getD none

/-! ## The Intermediate Store (the write loop of `run_mappers`) -/

/-- A file in the output directory as the Aggregator will see it: a JSON
document holding a string-keyed mapping, or content `json.load` rejects
(`JSONDecodeError`) or cannot read (`FileNotFoundError`). -/
inductive StoredFile where
  | record (r : List (String × Int))
  | corrupt
deriving DecidableEq

/-- `json.dump` of an integer-keyed dict: every key is rendered with
`str`, values are kept as integers. -/
def encodeRecord (m : List (Int × Int)) : List (String × Int) :=
  m.map fun p => (intToString p.1, p.2)

/-- `int(num)` applied to every key of a loaded JSON mapping, in order;
`none` when some key raises `ValueError`. -/
def decodeRecord (r : List (String × Int)) : Option (List (Int × Int)) :=
  match r with
  | [] => some []
  | (s, v) :: rest =>
    match pyInt s, decodeRecord rest with
    | some k, some tail => some ((k, v) :: tail)
    | _, _ => none

/-- `f'mapper_output_{i}.json'`. -/
def recordName (i : Nat) : String :=
  "mapper_output_" ++ natToString i ++ ".json"

/-- The write loop `for i, result in enumerate(mapper_results)`, started
at index `j`. -/
def saveFrom (j : Nat) (rs : List (List (Int × Int))) : List (String × StoredFile) :=
  match rs with
  | [] => []
  | r :: rest => (recordName j, StoredFile.record (encodeRecord r)) :: saveFrom (j + 1) rest

/-- The Partial Records written by `run_mappers`, named by sequence index
starting at `0`. -/
def saveResults (rs : List (List (Int × Int))) : List (String × StoredFile) :=
  saveFrom 0 rs

/-- Writing a file into a directory: overwrite an existing name in place,
otherwise create a new entry. -/
def writeFile (dir : List (String × StoredFile)) (name : String)
    (content : StoredFile) : List (String × StoredFile) :=
  if dir.any fun e => e.1 = name then
    dir.map fun e => if e.1 = name then (name, content) else e
  else dir ++ [(name, content)]

/-! ## The Aggregator (`reducer`) -/

/-- `glob('*.json')`: a name matches when it ends in `.json` and is not a
hidden file (glob's `*` never matches a leading dot). -/
def isRecordName (name : String) : Bool :=
  List.isSuffixOf ".json".data name.data && !(name.data.head? == some '.')

/-- `mapper_files = glob(os.path.join(REDUCER_DIR, '*.json'))`, in
directory-listing order. -/
def discoverRecords (dir : List (String × StoredFile)) : List (String × StoredFile) :=
  dir.filter fun e => isRecordName e.1

/-- `'final_output.txt'`, the name of the report artifact. -/
def reportFileName : String := "final_output.txt"

/-- Observable outcome of one `reducer()` call. -/
structure ReducerTrace where
  /-- The `"No mapper output files found"` message was printed and the
  function returned early. -/
  noRecords : Bool
  /-- Number of `"Error processing ..."` warnings for records that failed
  to decode. -/
  decodeWarnings : Nat
  /-- The report file written, as (name, ranked entries); `none` when no
  report file was written at all. -/
  report : Option (String × List (Int × Int))
deriving DecidableEq

/-- The aggregation loop of `reducer` over the discovered files:
corrupt records are skipped with a warning, decoded records are merged
pair by pair into `final_counts`; an undecodable key raises out of the
whole call (`none`). -/
def aggregate (files : List (String × StoredFile)) (m : List (Int × Int))
    (w : Nat) : Option (List (Int × Int) × Nat) :=
  match files with
  | [] => some (m, w)
  | (_, StoredFile.corrupt) :: rest => aggregate rest m (w + 1)
  | (_, StoredFile.record r) :: rest =>
    match decodeRecord r with
    | none => none
    | some pairs => aggregate rest (mergePairs m pairs) w

/-- `reducer()`: discover `*.json` files, return early when none, else
merge all decodable records, sort by count descending, and always write
the top 6 to `final_output.txt`. -/
def reducerRun (dir : List (String × StoredFile)) : Option ReducerTrace :=
  let files := discoverRecords dir
  if files.isEmpty then some ⟨true, 0, none⟩
  else
    match aggregate files [] 0 with
    | none => none
    | some (m, w) => some ⟨false, w, some (reportFileName, (sortDesc m).take 6)⟩

/-! ## The Pipeline Driver (`main`) -/

/-- Observable outcome of one `main()` run. -/
structure PipelineTrace where
  /-- `run_mappers` printed `"Error: No data files found"` and returned
  early. -/
  noInputReported : Bool
  /-- The Partial Records written by the mapper stage. -/
  recordsWritten : List (String × StoredFile)
  /-- Whether `reducer()` was called. -/
  reducerInvoked : Bool
  /-- The outcome of the `reducer()` call. -/
  reducerResult : ReducerTrace
deriving DecidableEq

/-- `main()`: `run_mappers()` then, unconditionally, `reducer()`.  `fs`
are the data files found under `DATA_DIR`, `dir0` the pre-existing
contents of the output directory; `none` models an uncaught exception
aborting the run. -/
def mainRun (fs : List FileData) (dir0 : List (String × StoredFile)) :
    Option PipelineTrace :=
  if fs.isEmpty then
    match reducerRun dir0 with
    | none => none
    | some rt => some ⟨true, [], true, rt⟩
  else
    let outs := fs.map mapperRun
    if outs.all fun o => o.result.isSome then
      let written := saveResults (outs.filterMap fun o => o.result)
      let dir1 := written.foldl (fun d e => writeFile d e.1 e.2) dir0
      match reducerRun dir1 with
      | none => none
      | some rt => some ⟨false, written, true, rt⟩
    else none

/-! ## Lemmas about `addCount`, `getCount` and merging -/

theorem addCount_nil (k v : Int) : addCount [] k v = [(k, v)] := rfl

theorem addCount_cons_eq (rest : List (Int × Int)) (k v v' : Int) :
    addCount ((k, v') :: rest) k v = (k, v' + v) :: rest := by
  simp [addCount]

theorem addCount_cons_ne (rest : List (Int × Int)) {k' k : Int} (h : k' ≠ k)
    (v v' : Int) :
    addCount ((k', v') :: rest) k v = (k', v') :: addCount rest k v := by
  simp [addCount, h]

theorem getCount_nil (j : Int) : getCount [] j = 0 := rfl

theorem getCount_cons (rest : List (Int × Int)) (k v j : Int) :
    getCount ((k, v) :: rest) j = if k = j then v else getCount rest j := rfl

theorem keysOf_cons (rest : List (Int × Int)) (p : Int × Int) :
    keysOf (p :: rest) = p.1 :: keysOf rest := rfl

theorem getCount_addCount (m : List (Int × Int)) (k v j : Int) :
    getCount (addCount m k v) j = getCount m j + (if k = j then v else 0) := by
  induction m with
  | nil =>
    by_cases h : k = j <;> simp [addCount_nil, getCount_cons, getCount_nil, h]
  | cons p rest ih =>
    obtain ⟨k', v'⟩ := p
    by_cases h1 : k' = k
    · subst h1
      by_cases h2 : k' = j <;>
        simp [addCount_cons_eq, getCount_cons, h2]
    · rw [addCount_cons_ne rest h1]
      by_cases h2 : k' = j
      · have hkj : ¬ k = j := fun hc => h1 (h2.trans hc.symm)
        simp [getCount_cons, h2, hkj]
      · simp [getCount_cons, h2, ih]

theorem mem_keys_addCount (m : List (Int × Int)) (k v j : Int) :
    j ∈ keysOf (addCount m k v) ↔ j ∈ keysOf m ∨ j = k := by
  induction m with
  | nil => simp [addCount_nil, keysOf, eq_comm]
  | cons p rest ih =>
    obtain ⟨k', v'⟩ := p
    by_cases h1 : k' = k
    · subst h1
      rw [addCount_cons_eq, keysOf_cons, keysOf_cons]
      simp only [List.mem_cons]
      tauto
    · rw [addCount_cons_ne rest h1, keysOf_cons, keysOf_cons]
      simp only [List.mem_cons, ih]
      tauto

theorem keysNodup_addCount {m : List (Int × Int)} (hm : keysNodup m) (k v : Int) :
    keysNodup (addCount m k v) := by
  induction m with
  | nil => simp [addCount_nil, keysNodup, keysOf]
  | cons p rest ih =>
    obtain ⟨k', v'⟩ := p
    have hm2 : k' ∉ keysOf rest ∧ (keysOf rest).Nodup := List.nodup_cons.mp hm
    obtain ⟨hk', hrest⟩ := hm2
    by_cases h1 : k' = k
    · subst h1
      rw [addCount_cons_eq]
      exact List.nodup_cons.mpr ⟨hk', hrest⟩
    · rw [addCount_cons_ne rest h1]
      refine List.nodup_cons.mpr ⟨?_, ih hrest⟩
      intro hc
      rcases (mem_keys_addCount rest k v k').mp hc with h | h
      · exact hk' h
      · exact h1 h

theorem pairSum_nil (j : Int) : pairSum [] j = 0 := rfl

theorem pairSum_cons (p : Int × Int) (r : List (Int × Int)) (j : Int) :
    pairSum (p :: r) j = (if p.1 = j then p.2 else 0) + pairSum r j := by
  by_cases h : p.1 = j <;> simp [pairSum, List.filter_cons, h]

theorem pairSum_eq_zero {r : List (Int × Int)} {j : Int} (h : j ∉ keysOf r) :
    pairSum r j = 0 := by
  induction r with
  | nil => rfl
  | cons p rest ih =>
    rw [keysOf_cons, List.mem_cons] at h
    push_neg at h
    rw [pairSum_cons, if_neg (fun hc => h.1 hc.symm), ih h.2]
    ring

theorem getCount_eq_zero {m : List (Int × Int)} {j : Int} (h : j ∉ keysOf m) :
    getCount m j = 0 := by
  induction m with
  | nil => rfl
  | cons p rest ih =>
    obtain ⟨k, v⟩ := p
    rw [keysOf_cons, List.mem_cons] at h
    push_neg at h
    rw [getCount_cons, if_neg (fun hc => h.1 hc.symm), ih h.2]

theorem pairSum_eq_getCount {r : List (Int × Int)} (h : keysNodup r) (j : Int) :
    pairSum r j = getCount r j := by
  induction r with
  | nil => rfl
  | cons p rest ih =>
    obtain ⟨hk, hrest⟩ := List.nodup_cons.mp h
    obtain ⟨k, v⟩ := p
    rw [pairSum_cons, getCount_cons]
    by_cases hkj : k = j
    · subst hkj
      rw [if_pos rfl, if_pos rfl, pairSum_eq_zero hk]
      ring
    · rw [if_neg hkj, if_neg hkj, ih hrest]
      ring

theorem mergePairs_nil (m : List (Int × Int)) : mergePairs m [] = m := rfl

theorem mergePairs_cons (m : List (Int × Int)) (p : Int × Int)
    (r : List (Int × Int)) :
    mergePairs m (p :: r) = mergePairs (addCount m p.1 p.2) r := rfl

theorem getCount_mergePairs (m r : List (Int × Int)) (j : Int) :
    getCount (mergePairs m r) j = getCount m j + pairSum r j := by
  induction r generalizing m with
  | nil => rw [mergePairs_nil, pairSum_nil]; ring
  | cons p rest ih =>
    rw [mergePairs_cons, ih, getCount_addCount, pairSum_cons]
    ring

theorem getCount_foldl_mergePairs (rs : List (List (Int × Int)))
    (m : List (Int × Int)) (j : Int) :
    getCount (rs.foldl mergePairs m) j =
      getCount m j + (rs.map fun r => pairSum r j).sum := by
  induction rs generalizing m with
  | nil => simp
  | cons r rest ih =>
    rw [List.foldl_cons, ih, getCount_mergePairs, List.map_cons, List.sum_cons]
    ring

/-- The Merged Mapping invariant, stated without any well-formedness
assumption: the merged count at `k` is the sum of the per-record pair
contributions at `k`. -/
theorem getCount_mergeRecordsList (rs : List (List (Int × Int))) (j : Int) :
    getCount (mergeRecordsList rs) j = (rs.map fun r => pairSum r j).sum := by
  rw [mergeRecordsList, getCount_foldl_mergePairs, getCount_nil]
  ring

theorem keysNodup_mergePairs {m : List (Int × Int)} (hm : keysNodup m)
    (r : List (Int × Int)) : keysNodup (mergePairs m r) := by
  induction r generalizing m with
  | nil => exact hm
  | cons p rest ih =>
    rw [mergePairs_cons]
    exact ih (keysNodup_addCount hm p.1 p.2)

theorem keysNodup_mergeRecordsList (rs : List (List (Int × Int))) :
    keysNodup (mergeRecordsList rs) := by
  have aux : ∀ (l : List (List (Int × Int))) (m : List (Int × Int)),
      keysNodup m → keysNodup (l.foldl mergePairs m) := by
    intro l
    induction l with
    | nil => intro m hm; exact hm
    | cons r rest ih =>
      intro m hm
      exact ih (mergePairs m r) (keysNodup_mergePairs hm r)
  exact aux rs [] (by simp [keysNodup, keysOf])

theorem mem_keys_mergePairs (m r : List (Int × Int)) (j : Int) :
    j ∈ keysOf (mergePairs m r) ↔ j ∈ keysOf m ∨ j ∈ keysOf r := by
  induction r generalizing m with
  | nil => simp [mergePairs_nil, keysOf]
  | cons p rest ih =>
    rw [mergePairs_cons, ih, mem_keys_addCount, keysOf_cons, List.mem_cons]
    tauto

theorem mem_keys_mergeRecordsList (rs : List (List (Int × Int))) (j : Int) :
    j ∈ keysOf (mergeRecordsList rs) ↔ ∃ r ∈ rs, j ∈ keysOf r := by
  have aux : ∀ (l : List (List (Int × Int))) (m : List (Int × Int)),
      (j ∈ keysOf (l.foldl mergePairs m) ↔ j ∈ keysOf m ∨ ∃ r ∈ l, j ∈ keysOf r) := by
    intro l
    induction l with
    | nil => intro m; simp
    | cons r rest ih =>
      intro m
      rw [List.foldl_cons, ih, mem_keys_mergePairs]
      simp only [List.mem_cons]
      constructor
      · rintro ((h | h) | ⟨r', hr', hj⟩)
        · exact Or.inl h
        · exact Or.inr ⟨r, Or.inl rfl, h⟩
        · exact Or.inr ⟨r', Or.inr hr', hj⟩
      · rintro (h | ⟨r', hr' | hr', hj⟩)
        · exact Or.inl (Or.inl h)
        · subst hr'; exact Or.inl (Or.inr hj)
        · exact Or.inr ⟨r', hr', hj⟩
  rw [mergeRecordsList, aux rs []]
  simp [keysOf]

theorem mem_iff_getCount {m : List (Int × Int)} (hm : keysNodup m)
    (k v : Int) : (k, v) ∈ m ↔ k ∈ keysOf m ∧ getCount m k = v := by
  induction m with
  | nil => simp [keysOf]
  | cons p rest ih =>
    obtain ⟨hk, hrest⟩ := List.nodup_cons.mp hm
    obtain ⟨k', v'⟩ := p
    by_cases hkk : k' = k
    · subst hkk
      constructor
      · intro hmem
        rcases List.mem_cons.mp hmem with heq | h2
        · have hv : v = v' := congrArg Prod.snd heq
          refine ⟨List.mem_cons_self _ _, ?_⟩
          rw [getCount_cons, if_pos rfl, hv]
        · exact absurd (List.mem_map.mpr ⟨(k', v), h2, rfl⟩) hk
      · rintro ⟨-, hval⟩
        rw [getCount_cons, if_pos rfl] at hval
        rw [← hval]
        exact List.mem_cons_self _ _
    · constructor
      · intro hmem
        rcases List.mem_cons.mp hmem with heq | h2
        · exact absurd (congrArg Prod.fst heq).symm hkk
        · obtain ⟨h1, hval⟩ := (ih hrest).mp h2
          refine ⟨List.mem_cons.mpr (Or.inr h1), ?_⟩
          rw [getCount_cons, if_neg hkk, hval]
      · rintro ⟨hmk, hval⟩
        rw [getCount_cons, if_neg hkk] at hval
        rcases List.mem_cons.mp hmk with h1 | h1
        · exact absurd h1.symm hkk
        · exact List.mem_cons.mpr (Or.inr ((ih hrest).mpr ⟨h1, hval⟩))

/-! ## Lemmas about the sort, the pool, the store and the aggregation -/

theorem sortDesc_sorted (l : List (Int × Int)) : (sortDesc l).Sorted countGE :=
  List.sorted_insertionSort countGE l

theorem sortDesc_perm (l : List (Int × Int)) : (sortDesc l).Perm l :=
  List.perm_insertionSort countGE l

theorem find?_poolEvents {sched : List Nat} {i : Nat} (hmem : i ∈ sched)
    (fs : List FileData) :
    (poolEvents fs sched).find? (fun e => e.1 == i) =
      some (i, mapperResult (fs.getD i FileData.missing)) := by
  induction sched with
  | nil => cases hmem
  | cons j rest ih =>
    rcases List.mem_cons.mp hmem with rfl | h2
    · simp [poolEvents, List.find?]
    · by_cases hji : j = i
      · subst hji
        simp [poolEvents, List.find?]
      · have : (j == i) = false := beq_false_of_ne hji
        simp only [poolEvents, List.map_cons, List.find?, this]
        exact ih h2

theorem getD_map_range {α : Type} (fs : List FileData) (f : FileData → α) :
    (List.range fs.length).map (fun i => f (fs.getD i FileData.missing)) = fs.map f := by
  induction fs with
  | nil => simp
  | cons x rest ih =>
    rw [List.length_cons, List.range_succ_eq_map, List.map_cons, List.map_cons,
      List.map_map]
    refine congrArg₂ _ (by simp) ?_
    rw [← ih]
    refine List.map_congr_left ?_
    intro i hi
    simp [List.getD_cons_succ]

theorem poolCollect_eq {fs : List FileData} {sched : List Nat}
    (hperm : sched.Perm (List.range fs.length)) :
    poolCollect fs sched = fs.map mapperResult := by
  unfold poolCollect
  rw [← getD_map_range fs mapperResult]
  refine List.map_congr_left ?_
  intro i hi
  rw [find?_poolEvents (hperm.mem_iff.mpr hi) fs]
  rfl

theorem saveFrom_getD (rs : List (List (Int × Int))) :
    ∀ j i, i < rs.length →
      (saveFrom j rs).getD i ("", StoredFile.corrupt) =
        (recordName (j + i), StoredFile.record (encodeRecord (rs.getD i []))) := by
  induction rs with
  | nil => intro j i h; simp at h
  | cons r rest ih =>
    intro j i h
    cases i with
    | zero => simp [saveFrom]
    | succ i' =>
      rw [saveFrom, List.getD_cons_succ, List.getD_cons_succ,
        ih (j + 1) i' (by simpa using h)]
      congr 2
      omega

theorem aggregate_all_corrupt {files : List (String × StoredFile)}
    (h : ∀ e ∈ files, e.2 = StoredFile.corrupt) :
    ∀ m w, aggregate files m w = some (m, w + files.length) := by
  induction files with
  | nil => intro m w; simp [aggregate]
  | cons e rest ih =>
    intro m w
    obtain ⟨name, content⟩ := e
    have hc : content = StoredFile.corrupt := h (name, content) (List.mem_cons_self _ _)
    subst hc
    rw [aggregate, ih (fun e he => h e (List.mem_cons_of_mem _ he))]
    congr 1
    rw [List.length_cons]
    congr 1
    omega

theorem getCount_countLines_foldl (ls : List String) (acc : List (Int × Int))
    (n : Int) :
    getCount
      (ls.foldl
        (fun acc l =>
          match pyInt l with
          | some k => addCount acc k 1
          | none => acc)
        acc) n =
      getCount acc n + (ls.countP fun l => pyInt l == some n : Int) := by
  induction ls generalizing acc with
  | nil => simp [List.countP, List.countP.go]
  | cons l rest ih =>
    rw [List.foldl_cons, ih, List.countP_cons]
    cases hpl : pyInt l with
    | none => simp
    | some k =>
      rw [getCount_addCount]
      by_cases hkn : k = n
      · subst hkn
        rw [if_pos rfl, if_pos (show (some k == some k) = true by simp)]
        push_cast
        ring
      · rw [if_neg hkn,
          if_neg (show ¬((some k == some n) = true) by simp [hkn])]
        push_cast
        ring

theorem getCount_countLines (ls : List String) (n : Int) :
    getCount (countLines ls) n = (ls.countP fun l => pyInt l == some n : Int) := by
  rw [countLines, getCount_countLines_foldl, getCount_nil]
  ring

theorem decodeRecord_encodeRecord (m : List (Int × Int)) :
    decodeRecord (encodeRecord m) = some m := by
  induction m with
  | nil => rfl
  | cons p rest ih =>
    obtain ⟨k, v⟩ := p
    show decodeRecord ((intToString k, v) :: encodeRecord rest) = some ((k, v) :: rest)
    rw [decodeRecord, pyInt_intToString, ih]

theorem discoverRecords_nil_of_no_json {dir : List (String × StoredFile)}
    (h : ∀ e ∈ dir, isRecordName e.1 = false) : discoverRecords dir = [] := by
  induction dir with
  | nil => rfl
  | cons e rest ih =>
    rw [discoverRecords, List.filter_cons, if_neg (by
      rw [h e (List.mem_cons_self _ _)]
      simp)]
    exact ih (fun x hx => h x (List.mem_cons_of_mem _ hx))

theorem isRecordName_report_false : isRecordName reportFileName = false := by decide

theorem reducerRun_no_records {dir : List (String × StoredFile)}
    (h : discoverRecords dir = []) : reducerRun dir = some ⟨true, 0, none⟩ := by
  rw [reducerRun]
  simp only [h]
  rfl

theorem discoverRecords_cons (e : String × StoredFile)
    (rest : List (String × StoredFile)) :
    discoverRecords (e :: rest) =
      if isRecordName e.1 then e :: discoverRecords rest
      else discoverRecords rest := by
  simp [discoverRecords, List.filter_cons]

theorem discoverRecords_map_overwrite (dir : List (String × StoredFile))
    (f : StoredFile) :
    discoverRecords
        (dir.map fun e => if e.1 = reportFileName then (reportFileName, f) else e) =
      discoverRecords dir := by
  induction dir with
  | nil => rfl
  | cons e rest ih =>
    rw [List.map_cons]
    by_cases h : e.1 = reportFileName
    · rw [if_pos h, discoverRecords_cons, discoverRecords_cons,
        if_neg (by simp [isRecordName_report_false]),
        if_neg (by rw [h]; simp [isRecordName_report_false])]
      exact ih
    · rw [if_neg h, discoverRecords_cons, discoverRecords_cons]
      by_cases hrec : isRecordName e.1 = true
      · rw [if_pos hrec, if_pos hrec, ih]
      · rw [if_neg hrec, if_neg hrec]
        exact ih

/-! ## The claims -/

/-- **C1, counterexample.**  On an empty Input File Set, `main` still calls
`reducer()`: `run_mappers` merely prints the no-input message and returns,
and `main` invokes the Aggregator unconditionally.  This refutes the
claim's "halts ... before invoking the Aggregator: ... the
reducer/Aggregator is never invoked". -/
theorem claim_C1_counterexample :
    (mainRun [] []).map PipelineTrace.reducerInvoked = some true := by decide

/-- **C1 (amended).**  For every run with an empty Input File Set (and an
output directory holding no `*.json` records), the driver reports the
no-input condition, writes no Partial Records and produces no report file
— but the reducer/Aggregator *is* still invoked; it then reports its own
nothing-to-aggregate condition. -/
theorem claim_C1_empty_input (dir0 : List (String × StoredFile))
    (h : ∀ e ∈ dir0, isRecordName e.1 = false) :
    mainRun [] dir0 = some ⟨true, [], true, ⟨true, 0, none⟩⟩ := by
  show (match reducerRun dir0 with
    | none => none
    | some rt => some (⟨true, [], true, rt⟩ : PipelineTrace)) = _
  rw [reducerRun_no_records (discoverRecords_nil_of_no_json h)]

theorem claim_C1_witness :
    (∀ e ∈ [("notes.txt", StoredFile.corrupt)], isRecordName e.1 = false) ∧
      mainRun [] [("notes.txt", StoredFile.corrupt)] =
        some ⟨true, [], true, ⟨true, 0, none⟩⟩ :=
  ⟨by decide, claim_C1_empty_input _ (by decide)⟩

/-- **C2, counterexample.**  When record files are discovered but every
one fails to decode, `reducer` does *not* stop: with zero valid Partial
Records it still writes a report file (header only, zero entries), because
the only guard is on the absence of `*.json` files, not on the number of
valid records.  This refutes "no report file is written". -/
theorem claim_C2_counterexample :
    (reducerRun [("mapper_output_0.json", StoredFile.corrupt)]).map
        ReducerTrace.report = some (some (reportFileName, [])) := by decide

/-- **C2 (amended).**  If no record files are discovered, the Aggregator
reports the nothing-to-aggregate condition and writes no report file.  If
record files are discovered but every one fails to decode, it warns once
per corrupt record and still writes a report containing zero entries. -/
theorem claim_C2_zero_valid (dir : List (String × StoredFile)) :
    (discoverRecords dir = [] → reducerRun dir = some ⟨true, 0, none⟩) ∧
      (discoverRecords dir ≠ [] →
        (∀ e ∈ discoverRecords dir, e.2 = StoredFile.corrupt) →
        reducerRun dir =
          some ⟨false, (discoverRecords dir).length, some (reportFileName, [])⟩) := by
  constructor
  · exact reducerRun_no_records
  · intro hne hall
    have hempty : (discoverRecords dir).isEmpty = false := by
      cases hx : discoverRecords dir with
      | nil => exact absurd hx hne
      | cons a l => rfl
    rw [reducerRun]
    simp only [hempty, Bool.false_eq_true, if_false]
    rw [aggregate_all_corrupt hall [] 0]
    simp [sortDesc, List.insertionSort]

theorem claim_C2_witness :
    reducerRun [] = some ⟨true, 0, none⟩ ∧
      reducerRun [("mapper_output_0.json", StoredFile.corrupt)] =
        some ⟨false, 1, some (reportFileName, [])⟩ :=
  ⟨(claim_C2_zero_valid []).1 rfl,
    ((claim_C2_zero_valid [("mapper_output_0.json", StoredFile.corrupt)]).2
        (by decide) (by decide)).trans (by decide)⟩

/-- **C3, counterexample.**  The same two Partial Records discovered in
two different orders produce Ranked Reports whose equal-count entries
appear in different orders: the tie-break is the insertion order of the
merged `defaultdict`, which follows discovery order.  This refutes the
claim's "one fixed, deterministic tie-break order that does not vary with
the discovery order of the Partial Records". -/
theorem claim_C3_counterexample :
    (reducerRun [("a.json", StoredFile.record [("1", 10)]),
        ("b.json", StoredFile.record [("2", 10)])]).map ReducerTrace.report =
      some (some (reportFileName, [(1, 10), (2, 10)])) ∧
    (reducerRun [("b.json", StoredFile.record [("2", 10)]),
        ("a.json", StoredFile.record [("1", 10)])]).map ReducerTrace.report =
      some (some (reportFileName, [(2, 10), (1, 10)])) := by decide

/-- **C3 (amended).**  The Ranked Report is the Merged Mapping's entries
stably sorted by count descending and truncated to at most `K = 6`
entries; equal counts keep the merged mapping's insertion order, which is
deterministic for a fixed discovery order but varies with it.  On the
spec's example `{1:10, 2:10, 3:9, 4:8, 5:7, 6:6, 7:5}` the report has
exactly 6 entries, excludes key 7, and contains both count-10 keys 1 and
2. -/
theorem claim_C3_ranked_report :
    (∀ m : List (Int × Int),
        (sortDesc m).Sorted countGE ∧ (sortDesc m).Perm m ∧
          ((sortDesc m).take 6).length ≤ 6) ∧
      (reducerRun [("mapper_output_0.json", StoredFile.record
          [("1", 10), ("2", 10), ("3", 9), ("4", 8), ("5", 7), ("6", 6), ("7", 5)])]).map
          ReducerTrace.report =
        some (some (reportFileName, [(1, 10), (2, 10), (3, 9), (4, 8), (5, 7), (6, 6)])) := by
  refine ⟨fun m => ⟨sortDesc_sorted m, sortDesc_perm m, ?_⟩, by decide⟩
  rw [List.length_take]
  exact min_le_left _ _

/-- **C4, counterexample.**  A file that exists but cannot be opened
(e.g. a permission error) is *not* handled: `mapper` catches only
`FileNotFoundError`, so the exception propagates and aborts the whole
pipeline instead of yielding an empty mapping.  This refutes "or cannot
be opened" and "never aborts the pipeline". -/
theorem claim_C4_counterexample :
    (mapperRun FileData.unreadable).result ≠ some [] ∧
      mainRun [FileData.unreadable] [] = none := by decide

/-- **C4 (amended).**  For every file path whose target does not exist
(`FileNotFoundError`), the Counter returns an empty Frequency Mapping and
surfaces a non-fatal logged warning, sibling Counter invocations are
unaffected, and the pipeline completes; an unreadable-but-existing file,
by contrast, is not recovered. -/
theorem claim_C4_missing_file :
    (mapperRun FileData.missing).result = some [] ∧
      (mapperRun FileData.missing).warned = true ∧
      (∀ pre post : List FileData,
        (pre ++ FileData.missing :: post).map mapperRun =
          pre.map mapperRun ++ ⟨some [], true⟩ :: post.map mapperRun) ∧
      (mainRun [FileData.missing] []).isSome = true := by
  refine ⟨rfl, rfl, ?_, by decide⟩
  intro pre post
  rw [List.map_append, List.map_cons]
  rfl

/-- **C5.**  For every set of decoded Partial Records with well-formed
(duplicate-free) keys, the Merged Mapping satisfies
`Merged[k] = Σ over records of Record[k]`, an absent key contributing `0`
(this is `getCount`'s default); and the spec's two example records
`{1:2, 2:1}` and `{1:1, 3:4}` merge to exactly `{1:3, 2:1, 3:4}`. -/
theorem claim_C5_merge_invariant :
    (∀ (rs : List (List (Int × Int))) (k : Int),
        (∀ r ∈ rs, keysNodup r) →
        getCount (mergeRecordsList rs) k = (rs.map fun r => getCount r k).sum) ∧
      mergeRecordsList [[(1, 2), (2, 1)], [(1, 1), (3, 4)]] =
        [(1, 3), (2, 1), (3, 4)] := by
  constructor
  · intro rs k h
    rw [getCount_mergeRecordsList]
    exact congrArg List.sum
      (List.map_congr_left fun r hr => pairSum_eq_getCount (h r hr) k)
  · decide

theorem claim_C5_witness :
    (∀ r ∈ ([[(1, 2), (2, 1)], [(1, 1), (3, 4)]] : List (List (Int × Int))),
        keysNodup r) ∧
      getCount (mergeRecordsList [[(1, 2), (2, 1)], [(1, 1), (3, 4)]]) 1 =
        (([[(1, 2), (2, 1)], [(1, 1), (3, 4)]] : List (List (Int × Int))).map
          fun r => getCount r 1).sum :=
  ⟨by decide, claim_C5_merge_invariant.1 _ 1 (by decide)⟩

/-- **C6.**  For every readable file, the Counter's Frequency Mapping
assigns to each integer `n` exactly the number of lines on which Python's
`int` (after stripping surrounding whitespace) yields `n`; every line that
fails to parse, blank lines included, contributes nothing.  The spec's
example file `"3\nabc\n\n5\n"` yields exactly `{3:1, 5:1}`. -/
theorem claim_C6_counter_mapping :
    (∀ (ls : List String) (n : Int),
        getCount (countLines ls) n =
          (ls.countP fun l => pyInt l == some n : Int)) ∧
      countLines ["3", "abc", "", "5"] = [(3, 1), (5, 1)] ∧
      mapperRun (FileData.lines ["3", "abc", "", "5"]) =
        ⟨some [(3, 1), (5, 1)], false⟩ :=
  ⟨getCount_countLines, by decide, by decide⟩

/-- **C7.**  For every Input File Set and every completion schedule of the
worker pool (any permutation of the task indices, hence any parallelism
bound and any completion timing), the collected result sequence equals the
input files mapped through the Counter in input order; and the
Intermediate Store names the record at sequence position `i` with index
`i` (`mapper_output_{i}.json`) holding exactly result `i`. -/
theorem claim_C7_pool_order :
    (∀ (fs : List FileData) (sched : List Nat),
        sched.Perm (List.range fs.length) →
        poolCollect fs sched = fs.map mapperResult) ∧
      (∀ (rs : List (List (Int × Int))) (i : Nat), i < rs.length →
        (saveResults rs).getD i ("", StoredFile.corrupt) =
          (recordName i, StoredFile.record (encodeRecord (rs.getD i [])))) := by
  constructor
  · intro fs sched h
    exact poolCollect_eq h
  · intro rs i h
    have h2 := saveFrom_getD rs 0 i h
    rwa [Nat.zero_add] at h2

theorem claim_C7_witness :
    ([1, 0].Perm (List.range [FileData.lines ["7"], FileData.missing].length)) ∧
      poolCollect [FileData.lines ["7"], FileData.missing] [1, 0] =
        [FileData.lines ["7"], FileData.missing].map mapperResult ∧
      0 < ([[(7, 1)]] : List (List (Int × Int))).length ∧
      (saveResults ([[(7, 1)]] : List (List (Int × Int)))).getD 0
          ("", StoredFile.corrupt) =
        (recordName 0, StoredFile.record
          (encodeRecord (([[(7, 1)]] : List (List (Int × Int))).getD 0 []))) :=
  ⟨by decide, claim_C7_pool_order.1 _ _ (by decide), by decide,
    claim_C7_pool_order.2 _ 0 (by decide)⟩

/-- **C8.**  Persisting a Frequency Mapping as a Partial Record
(`json.dump` renders each integer key with `str`) and decoding it in the
Aggregator (`int(key)` immediately on read) round-trips exactly: the
decoded mapping equals the original, with no key or count altered; the
merge logic (`mergePairs`) only ever receives integer keys. -/
theorem claim_C8_roundtrip :
    ∀ m : List (Int × Int), decodeRecord (encodeRecord m) = some m :=
  decodeRecord_encodeRecord

/-- **C9.**  Merging any permutation of a list of decoded Partial Records
yields a Merged Mapping with exactly the same set of (key, count) entries:
membership of every entry is invariant under permuting discovery order. -/
theorem claim_C9_perm_invariance (rs rs' : List (List (Int × Int)))
    (k v : Int) (h : rs.Perm rs') :
    ((k, v) ∈ mergeRecordsList rs ↔ (k, v) ∈ mergeRecordsList rs') := by
  rw [mem_iff_getCount (keysNodup_mergeRecordsList rs),
    mem_iff_getCount (keysNodup_mergeRecordsList rs'),
    mem_keys_mergeRecordsList, mem_keys_mergeRecordsList,
    getCount_mergeRecordsList, getCount_mergeRecordsList]
  constructor
  · rintro ⟨⟨r, hr, hk⟩, hsum⟩
    refine ⟨⟨r, h.mem_iff.mp hr, hk⟩, ?_⟩
    rw [← (h.map fun r => pairSum r k).sum_eq]
    exact hsum
  · rintro ⟨⟨r, hr, hk⟩, hsum⟩
    refine ⟨⟨r, h.mem_iff.mpr hr, hk⟩, ?_⟩
    rw [(h.map fun r => pairSum r k).sum_eq]
    exact hsum

theorem claim_C9_witness :
    (([[(1, 2), (2, 1)], [(1, 1), (3, 4)]] : List (List (Int × Int))).Perm
        [[(1, 1), (3, 4)], [(1, 2), (2, 1)]]) ∧
      ((1, 3) ∈ mergeRecordsList
          ([[(1, 2), (2, 1)], [(1, 1), (3, 4)]] : List (List (Int × Int))) ↔
        (1, 3) ∈ mergeRecordsList [[(1, 1), (3, 4)], [(1, 2), (2, 1)]]) :=
  ⟨by decide, claim_C9_perm_invariance _ _ 1 3 (by decide)⟩

/-- **C10.**  The Aggregator's record discovery (`glob('*.json')`) never
selects the final report artifact: `final_output.txt` does not match the
`*.json` pattern, so on any directory contents — including directories
into which the report was just (re)written — discovery returns the same
records and never the report file. -/
theorem claim_C10_report_never_rediscovered :
    (∀ dir : List (String × StoredFile),
        ((discoverRecords dir).map Prod.fst).contains reportFileName = false) ∧
      (∀ dir : List (String × StoredFile),
        discoverRecords (writeFile dir reportFileName StoredFile.corrupt) =
          discoverRecords dir) := by
  constructor
  · intro dir
    have hmem : reportFileName ∉ (discoverRecords dir).map Prod.fst := by
      intro hmem
      obtain ⟨e, he, hfst⟩ := List.mem_map.mp hmem
      have he2 : e ∈ dir.filter (fun x => isRecordName x.1) := he
      have hrec : isRecordName e.1 = true := (List.mem_filter.mp he2).2
      rw [hfst] at hrec
      exact absurd hrec (by decide)
    exact Bool.eq_false_iff.mpr (fun hc => hmem (List.elem_iff.mp hc))
  · intro dir
    rw [writeFile]
    split
    · exact discoverRecords_map_overwrite dir StoredFile.corrupt
    · rw [discoverRecords, List.filter_append]
      simp [discoverRecords, List.filter_cons, isRecordName_report_false]

end ScaleMap
